import Mathlib

/-!
Shallow embedding of the arc API gateway's route-construction pipeline
(`plugins/elasticsearch/routes.go`), request-forwarding handler
(`plugins/elasticsearch/handlers.go`) and process-wide response cache
(package `response`), together with theorems checking the specification's
claims about them.

Go strings are modelled as Lean `String`; splitting and character tests are
performed structurally over `String.data` so every definition evaluates by
kernel reduction.  Go maps are modelled as functions into `Option`; the
mutation of package-level variables is made explicit by state passing.
-/

namespace Arc

/-! ## String helpers (mirroring the `strings` package operations used) -/

/-- Accumulating core of `strings.Split(s, sep)` for a one-character
separator, mirroring its semantics: `Split("", sep) = [""]`, a leading or
trailing separator yields an empty field. -/
def splitOnCharAux (sep : Char) (cur : List Char) : List Char → List (List Char)
  | [] => [cur.reverse]
  | c :: rest =>
    if c = sep then cur.reverse :: splitOnCharAux sep [] rest
    else splitOnCharAux sep (c :: cur) rest

/-- Model of `strings.Split(s, sep)` for the one-character separators used by
the source (`"/"` and `"."`). -/
def splitOnChar (sep : Char) (s : String) : List String :=
  (splitOnCharAux sep [] s.data).map (fun cs => String.mk cs)

/-- Model of `strings.HasPrefix(s, p)` for the one-character prefixes used by
the source (`"/"`, `"_"`, `"{"`). -/
def startsWithChar (c : Char) (s : String) : Bool :=
  match s.data with
  | [] => false
  | c' :: _ => c' = c

/-- Model of `strings.TrimPrefix(s, "_")`: removes one leading underscore when
present. -/
def trimUnderscore (s : String) : String :=
  match s.data with
  | '_' :: rest => String.mk rest
  | _ => s

/-! ## Response cache (package `response`, `src/unnamed/part_000`)

The package-level map `Response : map[string]map[string]interface{}` is
modelled as a function state `String → Option Doc`; the `*map` return of
`GetResponse` (nil pointer when the key is absent) becomes `Option Doc`. -/

/-- Model of a cached response document (`map[string]interface{}`); the cache
treats values as opaque, so any type with decidable equality serves. -/
abbrev Doc := List (String × Nat)

/-- State of the package-level `Response` map. -/
abbrev ResponseCache := String → Option Doc

/-- The initial `make(map[string]map[string]interface{})`. -/
def emptyResponse : ResponseCache := fun _ => none

/-- Model of `GetResponse`: the stored document, or `none` when absent (the Go
function returns a nil pointer in that case). -/
def GetResponse (st : ResponseCache) (requestID : String) : Option Doc :=
  st requestID

/-- Model of `SaveResponse`: `Response[requestID] = response` inserts or
overwrites. -/
def SaveResponse (st : ResponseCache) (requestID : String) (response : Doc) : ResponseCache :=
  fun k => if k = requestID then some response else st k

/-- Model of `ClearResponse`: `delete(Response, requestID)`. -/
def ClearResponse (st : ResponseCache) (requestID : String) : ResponseCache :=
  fun k => if k = requestID then none else st k

/-! ## Spec data model (`plugins/elasticsearch/routes.go`) -/

/-- The `url` object of a spec file: canonical path plus optional variants.
The `parts`/`params` interface fields are unused by the pipeline and
omitted. -/
structure SpecURL where
  path : String
  paths : List String
deriving DecidableEq, Repr

/-- The decoded `spec` struct: documentation reference, HTTP methods, URL
object and the body-requirement flag (the body's description/serialize
strings are unused by the pipeline and omitted). -/
structure Spec where
  documentation : String
  methods : List String
  url : SpecURL
  bodyRequired : Bool
deriving DecidableEq, Repr

/-- Operation kinds. Modelled from the spec: the `op` package
(`internal/types/op`) is not under `src/`; the spec fixes the three kinds
read/write/delete and that a scan that ends without any classification
yields read, so `read` serves as the Go zero value of `op.Operation`. -/
inductive Op where
  | read
  | write
  | delete
deriving DecidableEq, Repr

/-- Access-control tiers are identified by name. Modelled from the spec: the
`acl` package (`internal/types/acl`) is not under `src/`. -/
abbrev ACL := String

/-- Modelled from the spec: the ACL vocabulary recognized by
`acl.FromString`; the spec's §4.3/§8 name the tiers "cat", "search" and
"get". Any name outside the vocabulary fails to resolve. -/
def aclVocab : List String := ["cat", "search", "get"]

/-- Modelled from the spec: `acl.FromString` returns the matching ACL, or an
error for an unrecognized name (`none` models the error return). -/
def aclFromString (s : String) : Option ACL :=
  if s ∈ aclVocab then some s else none

/-- The `api` struct handed from the decode pool to the route-table builder.
The `category` field is omitted: it depends on `category.FromString` (not
under `src/`) and no claim mentions it. -/
structure Api where
  name : String
  acl : ACL
  op : Op
  spec : Spec
deriving DecidableEq, Repr

/-! ## Classifier (`decodeACL`, `decodeOp`) -/

/-- The first `/`-delimited token of the canonical path that begins with
`_` — the loop of `decodeACL`. -/
def firstUnderscoreToken (path : String) : Option String :=
  (splitOnChar '/' path).find? (fun t => startsWithChar '_' t)

/-- Model of `decodeACL`: the returned `*acl.ACL` becomes `Option ACL`
(`none` is the nil pointer) and the returned `error` becomes a `Bool` flag.
An underscore token that fails to resolve returns `(nil, err)`; only the
file-name fallback path substitutes the default `acl.Get`. -/
def decodeACL (specName : String) (s : Spec) : Option ACL × Bool :=
  match firstUnderscoreToken s.url.path with
  | some tok =>
    match aclFromString (trimUnderscore tok) with
    | none => (none, true)
    | some c => (some c, false)
  | none =>
    match aclFromString ((splitOnChar '.' specName).headD "") with
    | none => (some "get", true)
    | some a => (some a, false)

/-- The labelled loop of `decodeOp`: `cur` is the running value of `specOp`
(initially the zero value); `PUT`/`PATCH`/`DELETE`/`GET`/`HEAD` and the
default case `break out`, while `POST` assigns write and continues. -/
def decodeOpAux (cur : Op) : List String → Op
  | [] => cur
  | m :: rest =>
    if m = "PUT" then Op.write
    else if m = "PATCH" then Op.write
    else if m = "DELETE" then Op.delete
    else if m = "GET" then Op.read
    else if m = "HEAD" then Op.read
    else if m = "POST" then decodeOpAux Op.write rest
    else Op.read

/-- Model of `decodeOp`. -/
def decodeOp (s : Spec) : Op := decodeOpAux Op.read s.methods

/-- Definition following the claim's words for C7: scan the methods in listed
order; PUT/PATCH stop with write, DELETE stops with delete, GET/HEAD stop
with read, POST records write but keeps scanning so a later method can
override it, any other method stops with read, and exhaustion of the list
yields read unless an unoverridden POST classification is pending (the
claim's override clause requires the recorded write to stand). -/
def opScanClaim (postSeen : Bool) : List String → Op
  | [] => if postSeen then Op.write else Op.read
  | m :: rest =>
    if m = "PUT" ∨ m = "PATCH" then Op.write
    else if m = "DELETE" then Op.delete
    else if m = "GET" ∨ m = "HEAD" then Op.read
    else if m = "POST" then opScanClaim true rest
    else Op.read

/-- The claim-side operation classifier for C7. -/
def opScanSpec (ms : List String) : Op := opScanClaim false ms

/-! ## Decode pool (`decodeSpecFile`, `decodeSpecFiles`)

Reading and JSON-parsing a file are external effects; a file is abstracted
by the outcome of those steps: unreadable (`ioutil.ReadFile` fails), a bad
envelope (either `decoder.Token()` call fails), a bad body
(`decoder.Decode` fails), or a valid spec together with the file's base
name with its `.json` suffix trimmed. -/

/-- Abstract content of one discovered spec file. -/
inductive FileContent where
  | unreadable
  | badEnvelope
  | badBody
  | valid (name : String) (s : Spec)
deriving DecidableEq, Repr

/-- Result of one decode task. `skipped` is the log-and-return path,
`fatal` is `log.Fatal` (which exits the whole process), `panicked` is the
nil-pointer dereference `*specACL` (a panic in a goroutine also kills the
process), and `ok` is a spec delivered to the `apis` channel. -/
inductive DecodeOutcome where
  | skipped
  | fatal
  | panicked
  | ok (a : Api)
deriving DecidableEq, Repr

/-- Model of `decodeSpecFile`: an unreadable file is logged and skipped; a
failing `decoder.Token()` or `decoder.Decode` calls `log.Fatal`; a decoded
spec is classified and sent on. When `decodeACL` returns a nil ACL pointer
(its error is only logged), the subsequent `acl: *specACL` dereference
panics. -/
def decodeSpecFile : FileContent → DecodeOutcome
  | .unreadable => .skipped
  | .badEnvelope => .fatal
  | .badBody => .fatal
  | .valid name s =>
    match decodeACL name s with
    | (none, _) => .panicked
    | (some a, _) => .ok { name := name, acl := a, op := decodeOp s, spec := s }

/-- Whether a decode outcome kills the process. -/
def abortsProcess : DecodeOutcome → Bool
  | .fatal => true
  | .panicked => true
  | _ => false

/-- The spec an outcome contributes, if any. -/
def deliveredApi : DecodeOutcome → Option Api
  | .ok a => some a
  | _ => none

/-- Model of the decode pool run over a corpus (task completion order
abstracted by the list order): if any task hits `log.Fatal` or panics the
process dies (`none`); otherwise the surviving specs reach the builder. -/
def decodePipeline (fs : List FileContent) : Option (List Api) :=
  let outs := fs.map decodeSpecFile
  if outs.any abortsProcess then none else some (outs.filterMap deliveredApi)

/-! ## Route-table builder (`preprocess`) -/

/-- A route-table entry (`route.Route`). The `HandlerFunc` field is the one
shared middleware-wrapped forwarding handler for every entry and carries no
comparable data, so it is omitted. -/
structure Route where
  name : String
  methods : List String
  path : String
  description : String
deriving DecidableEq, Repr

/-- The normalization in `preprocess`: `if !strings.HasPrefix(path, "/") {
path = "/" + path }`. -/
def normalizePath (p : String) : String :=
  if startsWithChar '/' p then p else String.mk ('/' :: p.data)

/-- The inner loop of `preprocess` for a single spec: one entry per declared
path variant (`api.spec.URL.Paths`), normalized to a leading `/`, with a
bare `/` skipped. The canonical `URL.Path` is never consulted here. -/
def entriesOfApi (a : Api) : List Route :=
  a.spec.url.paths.filterMap (fun p =>
    if normalizePath p = "/" then none
    else some { name := a.name, methods := a.spec.methods, path := normalizePath p,
                description := a.spec.documentation })

/-- Accumulated `routes` slice before sorting, over the arrival order of the
specs on the `apis` channel. -/
def buildRoutes (apis : List Api) : List Route :=
  apis.flatMap entriesOfApi

/-- Modelled from the spec: `util.CountComponents` (package `util`, not under
`src/`) computes the specificity score `(fixedSegmentCount,
parameterSegmentCount)` of a path, where a parameter segment is one
syntactically marked as a placeholder (`{name}`) and the empty fields
produced by the leading `/` are not segments. -/
def countComponents (p : String) : Nat × Nat :=
  let segs := (splitOnChar '/' p).filter (fun s => s ≠ "")
  ((segs.filter (fun s => !startsWithChar '{' s)).length,
   (segs.filter (fun s => startsWithChar '{' s)).length)

/-- The comparator `criteria` of `preprocess`: more fixed segments first;
among equals, fewer parameter segments first. -/
def criteria (r1 r2 : Route) : Bool :=
  if (countComponents r1.path).1 = (countComponents r2.path).1 then
    decide ((countComponents r1.path).2 < (countComponents r2.path).2)
  else
    decide ((countComponents r1.path).1 > (countComponents r2.path).1)

/-- The "may precede" preorder induced by `criteria`: `r1` may come before
`r2` exactly when the comparator does not demand the opposite order. -/
def routePrec (r1 r2 : Route) : Prop := criteria r2 r1 = false

instance : DecidableRel routePrec :=
  fun r1 r2 => inferInstanceAs (Decidable (criteria r2 r1 = false))

/-- Modelled from the spec: `route.By(criteria).Sort` (package `route`, not
under `src/`) sorts the slice by the comparator, ties resolving arbitrarily;
it is modelled as insertion sort over `routePrec`. -/
def sortRoutes (rs : List Route) : List Route :=
  rs.insertionSort routePrec

/-- The synthetic catch-all entry appended after the sort. -/
def indexRoute : Route :=
  { name := "ping", methods := ["GET"], path := "/",
    description := "You know, for search" }

/-- The route table published by `preprocess`: the sorted entries with the
catch-all appended last, outside the sort. -/
def publishedRoutes (apis : List Api) : List Route :=
  sortRoutes (buildRoutes apis) ++ [indexRoute]

/-- The lookup key `fmt.Sprintf("%s:%s", method, path)`. -/
def routeKey (method path : String) : String := method ++ ":" ++ path

/-- The keys a single spec registers in `routeSpecs`, in loop order: for each
retained normalized variant path, one key per declared method. -/
def apiKeys (a : Api) : List String :=
  (a.spec.url.paths.filterMap (fun p =>
    if normalizePath p = "/" then none else some (normalizePath p))).flatMap
    (fun q => a.spec.methods.map (fun m => routeKey m q))

/-- Registering one spec in the `routeSpecs` map: `routeSpecs[key] = api` for
each of its keys, later writes overwriting earlier ones. -/
def registerApi (m : String → Option Api) (a : Api) : String → Option Api :=
  (apiKeys a).foldl (fun acc k => fun k' => if k' = k then some a else acc k') m

/-- The `routeSpecs` map after the builder has drained the `apis` channel in
the given arrival order. -/
def routeSpecsOf (apis : List Api) : String → Option Api :=
  apis.foldl registerApi (fun _ => none)

/-! ## Forwarding handler (`plugins/elasticsearch/handlers.go`)

`http.Header` is `map[string][]string`; it is modelled as an association
list of (canonical key, values), iteration order abstracted by list order,
with distinct keys and nonempty value lists in any well-formed header. -/

/-- Header model. -/
abbrev Header := List (String × List String)

/-- Go's `v[0]` on a header's value slice (nonempty in any header produced
by net/http; `headD` supplies a junk default outside that invariant). -/
def firstVal (vs : List String) : String := vs.headD ""

/-- The outbound header loop: every inbound header except `Content-Type` is
`Set` on the outbound set — `headers.Set(k, v[0])` keeps only the first
value. -/
def outboundHeaders (h : Header) : Header :=
  h.filterMap (fun kv =>
    if kv.1 = "Content-Type" then none else some (kv.1, [firstVal kv.2]))

/-- Model of `w.Header().Set(k, v)`: any existing values for the key are
replaced by the single given value. -/
def setHeader (h : Header) (k v : String) : Header :=
  (k, [v]) :: h.filter (fun kv => kv.1 ≠ k)

/-- The response-header loop on backend success: every backend header except
`Content-Length` is `Set` (first value only) on the gateway response. -/
def relayHeaders (h : Header) : Header :=
  h.filterMap (fun kv =>
    if kv.1 = "Content-Length" then none else some (kv.1, [firstVal kv.2]))

/-- The backend reply shape used by the handler (`response.StatusCode`,
`response.Header`, `response.Body`); body bytes are opaque. -/
structure BackendResponse where
  statusCode : Nat
  header : Header
  body : List Nat
deriving DecidableEq, Repr

/-- What the handler writes back to the client on backend success. -/
structure GatewayResponse where
  statusCode : Nat
  header : Header
  body : List Nat
deriving DecidableEq, Repr

/-- The success path of `handler`: copy non-`Content-Length` headers (first
values), set the `X-Origin: ES` marker, write the backend status code and
stream the body bytes unmodified. -/
def handlerSuccess (resp : BackendResponse) : GatewayResponse :=
  { statusCode := resp.statusCode,
    header := setHeader (relayHeaders resp.header) "X-Origin" "ES",
    body := resp.body }

/-! ## Concrete fixtures for counterexamples and witnesses -/

/-- A well-formed search spec (no path variant degenerates to `/`). -/
def specSearch : Spec :=
  { documentation := "https://search-engine.example/docs/search.html",
    methods := ["GET", "POST"],
    url := { path := "/_search", paths := ["/_search"] },
    bodyRequired := false }

/-- A spec whose only underscore path segment is outside the ACL
vocabulary. -/
def specFrob : Spec :=
  { documentation := "https://search-engine.example/docs/frobnicate.html",
    methods := ["GET"],
    url := { path := "/_frobnicate/x", paths := ["/_frobnicate/x"] },
    bodyRequired := false }

/-- The spec-file example `/_cat/indices` for ACL classification. -/
def specCatIndices : Spec :=
  { documentation := "https://search-engine.example/docs/cat-indices.html",
    methods := ["GET"],
    url := { path := "/_cat/indices", paths := ["/_cat/indices"] },
    bodyRequired := false }

/-- A spec with no underscore path segment, named `search.json`. -/
def specPlainSearch : Spec :=
  { documentation := "https://search-engine.example/docs/search.html",
    methods := ["GET"],
    url := { path := "/searchme", paths := ["/searchme"] },
    bodyRequired := false }

/-- A spec with no underscore path segment and an unrecognized name. -/
def specUnknownName : Spec :=
  { documentation := "https://search-engine.example/docs/zap.html",
    methods := ["GET"],
    url := { path := "/zap", paths := ["/zap"] },
    bodyRequired := false }

/-- An api whose spec declares a canonical path but no path variants. -/
def apiNoVariants : Api :=
  { name := "search", acl := "search", op := Op.read,
    spec := { documentation := "https://search-engine.example/docs/search.html",
              methods := ["POST"],
              url := { path := "/_search", paths := [] },
              bodyRequired := true } }

/-- An api with a variant lacking a leading slash, a bare `/` variant, and a
parameterized variant. -/
def apiW : Api :=
  { name := "widgets", acl := "get", op := Op.read,
    spec := { documentation := "https://search-engine.example/docs/widgets.html",
              methods := ["GET"],
              url := { path := "/x", paths := ["x", "/", "/{index}/_logs"] },
              bodyRequired := false } }

/-- The first entry `apiW` registers: variant `"x"` normalized to `/x`. -/
def rW : Route :=
  { name := "widgets", methods := ["GET"], path := "/x",
    description := "https://search-engine.example/docs/widgets.html" }

/-- First of two apis registering the same (method, path) pair. -/
def apiDup1 : Api :=
  { name := "first", acl := "get", op := Op.read,
    spec := { documentation := "d1", methods := ["GET"],
              url := { path := "/x", paths := ["/x"] }, bodyRequired := false } }

/-- Second of two apis registering the same (method, path) pair. -/
def apiDup2 : Api :=
  { name := "second", acl := "get", op := Op.read,
    spec := { documentation := "d2", methods := ["GET"],
              url := { path := "/x", paths := ["/x"] }, bodyRequired := false } }

/-- An inbound header set with a multi-valued `Accept` and a
`Content-Type`. -/
def inboundX : Header :=
  [("Accept", ["application/json", "text/plain"]),
   ("Content-Type", ["application/json"])]

/-- A backend response with a multi-valued header and a `Content-Length`. -/
def respX : BackendResponse :=
  { statusCode := 200,
    header := [("Set-Cookie", ["a=1", "b=2"]), ("Content-Length", ["42"])],
    body := [123, 125] }

/-- Minimal spec fixtures for the C7 examples. -/
def specPostGet : Spec :=
  { documentation := "", methods := ["POST", "GET"],
    url := { path := "/x", paths := ["/x"] }, bodyRequired := false }

/-- Spec declaring only PUT. -/
def specPut : Spec :=
  { documentation := "", methods := ["PUT"],
    url := { path := "/x", paths := ["/x"] }, bodyRequired := false }

/-- Spec declaring only DELETE. -/
def specDelete : Spec :=
  { documentation := "", methods := ["DELETE"],
    url := { path := "/x", paths := ["/x"] }, bodyRequired := false }

end Arc

namespace Arc

/-! ## Supporting lemmas -/

/-- Characterization of the "may precede" preorder by specificity scores. -/
theorem routePrec_iff (a b : Route) :
    routePrec a b ↔
      (countComponents b.path).1 < (countComponents a.path).1 ∨
      ((countComponents a.path).1 = (countComponents b.path).1 ∧
        (countComponents a.path).2 ≤ (countComponents b.path).2) := by
  unfold routePrec criteria
  by_cases h : (countComponents b.path).1 = (countComponents a.path).1
  · rw [if_pos h]
    simp only [decide_eq_false_iff_not]
    omega
  · rw [if_neg h]
    simp only [decide_eq_false_iff_not]
    omega

instance : IsTotal Route routePrec :=
  ⟨fun a b => by
    rw [routePrec_iff, routePrec_iff]
    omega⟩

instance : IsTrans Route routePrec :=
  ⟨fun a b c hab hbc => by
    rw [routePrec_iff] at hab hbc ⊢
    omega⟩

/-- A normalized path begins with a slash. -/
theorem startsWithChar_normalizePath (p : String) :
    startsWithChar '/' (normalizePath p) = true := by
  unfold normalizePath
  by_cases h : startsWithChar '/' p = true
  · rw [if_pos h]
    exact h
  · rw [if_neg h]
    rfl

/-- Shape of any entry a single spec contributes to the table. -/
theorem mem_entriesOfApi {a : Api} {r : Route} (h : r ∈ entriesOfApi a) :
    startsWithChar '/' r.path = true ∧ r.path ≠ "/" ∧
      ∃ p ∈ a.spec.url.paths, r.path = normalizePath p := by
  unfold entriesOfApi at h
  rw [List.mem_filterMap] at h
  obtain ⟨p, hp, heq⟩ := h
  by_cases hq : normalizePath p = "/"
  · rw [if_pos hq] at heq
    exact absurd heq (by simp)
  · rw [if_neg hq] at heq
    obtain rfl := Option.some_injective _ heq
    exact ⟨startsWithChar_normalizePath p, hq, p, hp, rfl⟩

/-- Shape of any entry in the accumulated (pre-sort) table. -/
theorem mem_buildRoutes {apis : List Api} {r : Route} (h : r ∈ buildRoutes apis) :
    startsWithChar '/' r.path = true ∧ r.path ≠ "/" := by
  unfold buildRoutes at h
  rw [List.mem_flatMap] at h
  obtain ⟨a, _, hr⟩ := h
  exact ⟨(mem_entriesOfApi hr).1, (mem_entriesOfApi hr).2.1⟩

/-- Folding key updates that all store the same value reads back as a
membership test. -/
theorem foldl_update_eq (a : Api) (k : String) :
    ∀ (ks : List String) (m : String → Option Api),
      (ks.foldl (fun acc k' => fun k'' => if k'' = k' then some a else acc k'') m) k =
        if k ∈ ks then some a else m k := by
  intro ks
  induction ks with
  | nil => intro m; simp
  | cons k0 ks ih =>
    intro m
    rw [List.foldl_cons, ih]
    by_cases hk : k ∈ ks
    · simp [hk]
    · by_cases hk0 : k = k0 <;> simp [hk, hk0]

/-- Reading the `routeSpecs` map after registering one spec. -/
theorem registerApi_eq (m : String → Option Api) (a : Api) (k : String) :
    registerApi m a k = if k ∈ apiKeys a then some a else m k :=
  foldl_update_eq a k (apiKeys a) m

/-- The `decodeOp` loop agrees with the claim's scanning algorithm; the Go
accumulator holds write exactly when an unoverridden POST is pending. -/
theorem decodeOpAux_eq_opScanClaim :
    ∀ (ms : List String) (b : Bool),
      decodeOpAux (if b then Op.write else Op.read) ms = opScanClaim b ms := by
  intro ms
  induction ms with
  | nil => intro b; cases b <;> rfl
  | cons m rest ih =>
    intro b
    by_cases h1 : m = "PUT"
    · cases b <;> simp [decodeOpAux, opScanClaim, h1]
    · by_cases h2 : m = "PATCH"
      · cases b <;> simp [decodeOpAux, opScanClaim, h1, h2]
      · by_cases h3 : m = "DELETE"
        · cases b <;> simp [decodeOpAux, opScanClaim, h1, h2, h3]
        · by_cases h4 : m = "GET"
          · cases b <;> simp [decodeOpAux, opScanClaim, h1, h2, h3, h4]
          · by_cases h5 : m = "HEAD"
            · cases b <;> simp [decodeOpAux, opScanClaim, h1, h2, h3, h4, h5]
            · by_cases h6 : m = "POST"
              · have hrest := ih true
                cases b <;>
                  simpa [decodeOpAux, opScanClaim, h1, h2, h3, h4, h5, h6] using hrest
              · cases b <;> simp [decodeOpAux, opScanClaim, h1, h2, h3, h4, h5, h6]

/-! ## Claim theorems -/

/-- C1: for every set of decoded specs and every completion order, the
published route table contains exactly one entry with path `/` — the
synthetic catch-all, whose method list is exactly GET — and that entry is
the final element; it is appended after the sort (`publishedRoutes` places
it outside `sortRoutes`). -/
theorem claim_C1 (apis : List Api) :
    (publishedRoutes apis).getLast? = some indexRoute ∧
    (publishedRoutes apis).filter (fun r => decide (r.path = "/")) = [indexRoute] ∧
    indexRoute.methods = ["GET"] ∧ indexRoute.path = "/" := by
  refine ⟨List.getLast?_concat _, ?_, rfl, rfl⟩
  unfold publishedRoutes
  rw [List.filter_append]
  have h1 : (sortRoutes (buildRoutes apis)).filter (fun r => decide (r.path = "/")) = [] := by
    rw [List.filter_eq_nil_iff]
    intro r hr
    have hr' : r ∈ buildRoutes apis :=
      (List.perm_insertionSort routePrec (buildRoutes apis)).mem_iff.mp hr
    simpa using (mem_buildRoutes hr').2
  rw [h1]
  simp [indexRoute]

/-- Witness for C1 at a concrete spec list. -/
theorem claim_C1_witness :
    (publishedRoutes [apiDup1]).getLast? = some indexRoute ∧
    (publishedRoutes [apiDup1]).filter (fun r => decide (r.path = "/")) = [indexRoute] :=
  ⟨(claim_C1 [apiDup1]).1, (claim_C1 [apiDup1]).2.1⟩

/-- C2: in the published table, among the non-catch-all entries (everything
before the final catch-all), any earlier entry has at least as many fixed
segments as any later one, and on equal fixed counts at most as many
parameter segments. -/
theorem claim_C2 (apis : List Api) :
    ((publishedRoutes apis).dropLast).Pairwise (fun r1 r2 =>
      (countComponents r2.path).1 ≤ (countComponents r1.path).1 ∧
      ((countComponents r1.path).1 = (countComponents r2.path).1 →
        (countComponents r1.path).2 ≤ (countComponents r2.path).2)) := by
  have hd : (publishedRoutes apis).dropLast = sortRoutes (buildRoutes apis) :=
    List.dropLast_concat
  rw [hd]
  have hs : List.Sorted routePrec (sortRoutes (buildRoutes apis)) :=
    List.sorted_insertionSort routePrec (buildRoutes apis)
  refine List.Pairwise.imp ?_ hs
  intro r1 r2 h
  rw [routePrec_iff] at h
  omega

/-- Witness for C2 at a concrete spec list. -/
theorem claim_C2_witness :
    ((publishedRoutes [apiDup1, apiW]).dropLast).Pairwise (fun r1 r2 =>
      (countComponents r2.path).1 ≤ (countComponents r1.path).1 ∧
      ((countComponents r1.path).1 = (countComponents r2.path).1 →
        (countComponents r1.path).2 ≤ (countComponents r2.path).2)) :=
  claim_C2 [apiDup1, apiW]

/-- C3: the claim says a malformed file is logged and skipped and the valid
specs survive; the code instead calls `log.Fatal` when either JSON
`decoder.Token()` call or `decoder.Decode` fails, killing the process, so a
corpus of one valid and one malformed file yields nothing rather than the
one valid spec. Only an unreadable file takes the log-and-skip path. -/
theorem claim_C3 :
    decodeSpecFile FileContent.unreadable = DecodeOutcome.skipped ∧
    decodeSpecFile FileContent.badEnvelope = DecodeOutcome.fatal ∧
    decodeSpecFile FileContent.badBody = DecodeOutcome.fatal ∧
    decodePipeline [FileContent.valid "search" specSearch, FileContent.badBody] = none ∧
    decodePipeline [FileContent.valid "search" specSearch] =
      some [{ name := "search", acl := "search", op := Op.read, spec := specSearch }] := by
  decide

/-- C4 (amended): the builder registers one entry per declared path variant,
normalized to a leading `/` with a bare `/` variant skipped; a spec that
declares no variants contributes no entries — the canonical `url.path` is
never used as a fallback. -/
theorem claim_C4 (a : Api) :
    (a.spec.url.paths = [] → entriesOfApi a = []) ∧
    (∀ r ∈ entriesOfApi a, startsWithChar '/' r.path = true ∧ r.path ≠ "/" ∧
      ∃ p ∈ a.spec.url.paths, r.path = normalizePath p) ∧
    (entriesOfApi a).length =
      a.spec.url.paths.countP (fun p => decide (normalizePath p ≠ "/")) := by
  refine ⟨fun h => by simp [entriesOfApi, h], fun r hr => mem_entriesOfApi hr, ?_⟩
  unfold entriesOfApi
  generalize a.spec.url.paths = ps
  induction ps with
  | nil => rfl
  | cons p ps ih =>
    rw [List.filterMap_cons, List.countP_cons]
    by_cases h : normalizePath p = "/" <;> simp [h, ih]

/-- Counterexample for C4 as stated: a spec with a canonical `url.path` but
no declared variants registers no route at all — there is no fallback to the
canonical path. -/
theorem claim_C4_counterexample :
    apiNoVariants.spec.url.path = "/_search" ∧
    apiNoVariants.spec.url.paths = [] ∧
    entriesOfApi apiNoVariants = [] ∧
    ¬ ∃ r ∈ entriesOfApi apiNoVariants, r.path = "/_search" := by
  decide

/-- Witness for C4 at concrete specs: the variant `"x"` of `apiW` is
registered as `/x`, and the variant-less `apiNoVariants` contributes
nothing. -/
theorem claim_C4_witness :
    (startsWithChar '/' rW.path = true ∧ rW.path ≠ "/" ∧
      ∃ p ∈ apiW.spec.url.paths, rW.path = normalizePath p) ∧
    entriesOfApi apiNoVariants = [] :=
  ⟨(claim_C4 apiW).2.1 rW (by decide), (claim_C4 apiNoVariants).1 rfl⟩

/-- C5 (amended): table assembly performs no deduplication — every entry of
every spec reaches the published table (its length is the total number of
retained variants plus the catch-all) — and the `routeSpecs` lookup keyed by
`"METHOD:path"` retains the last registration of a key, not the first. -/
theorem claim_C5 :
    (∀ apis : List Api, (publishedRoutes apis).length =
      (apis.map (fun a => (entriesOfApi a).length)).sum + 1) ∧
    (∀ (apis : List Api) (a : Api) (k : String),
      routeSpecsOf (apis ++ [a]) k = if k ∈ apiKeys a then some a else routeSpecsOf apis k) := by
  constructor
  · intro apis
    unfold publishedRoutes
    rw [List.length_append]
    have hp : (sortRoutes (buildRoutes apis)).length = (buildRoutes apis).length :=
      (List.perm_insertionSort routePrec (buildRoutes apis)).length_eq
    rw [hp]
    unfold buildRoutes
    rw [List.length_flatMap]
    rfl
  · intro apis a k
    unfold routeSpecsOf
    rw [List.foldl_append]
    exact registerApi_eq _ a k

/-- Witness for C5 at concrete spec lists. -/
theorem claim_C5_witness :
    (publishedRoutes [apiDup1, apiDup2]).length =
      ([apiDup1, apiDup2].map (fun a => (entriesOfApi a).length)).sum + 1 ∧
    routeSpecsOf ([apiDup1] ++ [apiDup2]) "GET:/x" =
      if "GET:/x" ∈ apiKeys apiDup2 then some apiDup2
      else routeSpecsOf [apiDup1] "GET:/x" :=
  ⟨claim_C5.1 [apiDup1, apiDup2], claim_C5.2 [apiDup1] apiDup2 "GET:/x"⟩

/-- Counterexample for C5 as stated: two specs registering the same method
and path yield two published entries sharing method GET and path `/x`; the
later duplicate is not dropped. -/
theorem claim_C5_counterexample :
    ((publishedRoutes [apiDup1, apiDup2]).countP
      (fun r => decide ("GET" ∈ r.methods ∧ r.path = "/x"))) = 2 ∧
    routeSpecsOf [apiDup1, apiDup2] "GET:/x" = some apiDup2 := by
  decide

/-- C6: the claim's positive cases hold (`/_cat/indices` resolves to the cat
tier, a variant-free name like `search` resolves via the file name, an
unrecognized file name defaults to the get tier with a reported error), but
when the first underscore path segment itself is outside the ACL vocabulary
`decodeACL` returns a nil ACL with its error merely logged, and the
subsequent `*specACL` dereference panics the decode task instead of
defaulting to the get tier. -/
theorem claim_C6 :
    decodeACL "cat-indices" specCatIndices = (some "cat", false) ∧
    decodeACL "search" specPlainSearch = (some "search", false) ∧
    decodeACL "zap" specUnknownName = (some "get", true) ∧
    decodeACL "frobnicate" specFrob = (none, true) ∧
    decodeSpecFile (FileContent.valid "frobnicate" specFrob) = DecodeOutcome.panicked := by
  decide

/-- C7: the operation classifier scans methods in listed order exactly as the
claim describes — PUT/PATCH stop with write, DELETE stops with delete,
GET/HEAD stop with read, POST records write but continues so a later method
overrides it, anything else stops with read — and the claim's examples hold,
`["POST","GET"]` yielding read. (The claim's "exhaustion of the list yields
read" is read as the scan's default when no classification is pending; by
the claim's own override clause, an unoverridden POST leaves write.) -/
theorem claim_C7 :
    (∀ s : Spec, decodeOp s = opScanSpec s.methods) ∧
    decodeOp specPostGet = Op.read ∧
    decodeOp specPut = Op.write ∧
    decodeOp specDelete = Op.delete := by
  refine ⟨fun s => ?_, by decide, by decide, by decide⟩
  simpa [decodeOp, opScanSpec] using decodeOpAux_eq_opScanClaim s.methods false

/-- Witness for C7 at a concrete spec. -/
theorem claim_C7_witness :
    decodeOp specSearch = opScanSpec specSearch.methods :=
  claim_C7.1 specSearch

/-- C8 (amended): the outbound header set contains, for every inbound header
except `Content-Type`, its key mapped to the first inbound value only (and
nothing else), and on backend success the gateway response carries the
backend status code and body unmodified, the `X-Origin: ES` marker, no
`Content-Length`, and the first value of every other backend header. -/
theorem claim_C8 (inbound : Header) (resp : BackendResponse) :
    (∀ kv ∈ outboundHeaders inbound, kv.1 ≠ "Content-Type") ∧
    (∀ k vs, (k, vs) ∈ inbound → k ≠ "Content-Type" →
      (k, [firstVal vs]) ∈ outboundHeaders inbound) ∧
    (∀ kv ∈ outboundHeaders inbound, ∃ vs, (kv.1, vs) ∈ inbound ∧ kv.2 = [firstVal vs]) ∧
    (handlerSuccess resp).statusCode = resp.statusCode ∧
    (handlerSuccess resp).body = resp.body ∧
    (handlerSuccess resp).header.lookup "X-Origin" = some ["ES"] ∧
    (∀ kv ∈ (handlerSuccess resp).header, kv.1 ≠ "Content-Length") ∧
    (∀ k vs, (k, vs) ∈ resp.header → k ≠ "Content-Length" → k ≠ "X-Origin" →
      (k, [firstVal vs]) ∈ (handlerSuccess resp).header) := by
  refine ⟨?_, ?_, ?_, rfl, rfl, ?_, ?_, ?_⟩
  · intro kv h
    rw [outboundHeaders, List.mem_filterMap] at h
    obtain ⟨⟨k0, vs0⟩, _, heq⟩ := h
    by_cases hk : k0 = "Content-Type"
    · simp [hk] at heq
    · rw [if_neg hk] at heq
      obtain rfl := Option.some_injective _ heq
      exact hk
  · intro k vs hm hk
    rw [outboundHeaders, List.mem_filterMap]
    exact ⟨(k, vs), hm, by simp [hk]⟩
  · intro kv h
    rw [outboundHeaders, List.mem_filterMap] at h
    obtain ⟨⟨k0, vs0⟩, hm, heq⟩ := h
    by_cases hk : k0 = "Content-Type"
    · simp [hk] at heq
    · rw [if_neg hk] at heq
      obtain rfl := Option.some_injective _ heq
      exact ⟨vs0, hm, rfl⟩
  · simp [handlerSuccess, setHeader, List.lookup]
  · intro kv h
    rcases List.mem_cons.mp h with h0 | h1
    · subst h0; decide
    · have h2 : kv ∈ relayHeaders resp.header := List.mem_of_mem_filter h1
      rw [relayHeaders, List.mem_filterMap] at h2
      obtain ⟨⟨k0, vs0⟩, _, heq⟩ := h2
      by_cases hk : k0 = "Content-Length"
      · simp [hk] at heq
      · rw [if_neg hk] at heq
        obtain rfl := Option.some_injective _ heq
        exact hk
  · intro k vs hm hCL hXO
    have h1 : (k, [firstVal vs]) ∈ relayHeaders resp.header := by
      rw [relayHeaders, List.mem_filterMap]
      exact ⟨(k, vs), hm, by simp [hCL]⟩
    have h2 : (k, [firstVal vs]) ∈
        (relayHeaders resp.header).filter (fun kv => kv.1 ≠ "X-Origin") :=
      List.mem_filter.mpr ⟨h1, by simpa using hXO⟩
    exact List.mem_cons_of_mem _ h2

/-- Counterexample for C8 as stated: with a multi-valued inbound `Accept`
header, the outbound header set is not the inbound set minus `Content-Type`
— only the first `Accept` value is forwarded. -/
theorem claim_C8_counterexample :
    (outboundHeaders inboundX).lookup "Accept" = some ["application/json"] ∧
    inboundX.lookup "Accept" = some ["application/json", "text/plain"] ∧
    (inboundX.filter (fun kv => kv.1 ≠ "Content-Type")).lookup "Accept" =
      some ["application/json", "text/plain"] ∧
    outboundHeaders inboundX ≠ inboundX.filter (fun kv => kv.1 ≠ "Content-Type") := by
  decide

/-- Witness for C8 at concrete headers and a concrete backend response. -/
theorem claim_C8_witness :
    ("Accept", ["application/json"]) ∈ outboundHeaders inboundX ∧
    (handlerSuccess respX).statusCode = respX.statusCode ∧
    (handlerSuccess respX).header.lookup "X-Origin" = some ["ES"] ∧
    ("Set-Cookie", ["a=1"]) ∈ (handlerSuccess respX).header :=
  ⟨(claim_C8 inboundX respX).2.1 "Accept" ["application/json", "text/plain"]
      (by decide) (by decide),
   (claim_C8 inboundX respX).2.2.2.1,
   (claim_C8 inboundX respX).2.2.2.2.2.1,
   (claim_C8 inboundX respX).2.2.2.2.2.2.2 "Set-Cookie" ["a=1", "b=2"]
      (by decide) (by decide) (by decide)⟩

/-- C9: saving then getting a key returns the stored document (distinguishable
from not-found), a second save overwrites, clearing then getting yields the
explicit not-found result, and clearing an absent key leaves the store
unchanged (pointwise). -/
theorem claim_C9 (st : ResponseCache) (k : String) (v v' : Doc) :
    GetResponse (SaveResponse st k v) k = some v ∧
    GetResponse (SaveResponse (SaveResponse st k v') k v) k = some v ∧
    GetResponse (ClearResponse st k) k = none ∧
    (GetResponse st k = none → ∀ k', ClearResponse st k k' = st k') := by
  refine ⟨by simp [GetResponse, SaveResponse], by simp [GetResponse, SaveResponse],
    by simp [GetResponse, ClearResponse], ?_⟩
  intro h k'
  by_cases hk : k' = k
  · subst hk
    simpa [ClearResponse] using h.symm
  · simp [ClearResponse, hk]

/-- Example document `{"took": 5}` from the specification's round-trip
example. -/
def docTook5 : Doc := [("took", 5)]

/-- Witness for C9 at the specification's concrete example. -/
theorem claim_C9_witness :
    GetResponse (SaveResponse emptyResponse "r1" docTook5) "r1" = some docTook5 ∧
    GetResponse (ClearResponse (SaveResponse emptyResponse "r1" docTook5) "r1") "r1" = none ∧
    ClearResponse emptyResponse "r2" "r2" = emptyResponse "r2" :=
  ⟨(claim_C9 emptyResponse "r1" docTook5 docTook5).1,
   (claim_C9 (SaveResponse emptyResponse "r1" docTook5) "r1" docTook5 docTook5).2.2.1,
   (claim_C9 emptyResponse "r2" docTook5 docTook5).2.2.2 rfl "r2"⟩

end Arc
